import Mathlib

/-!
# Verification of the CV rewriting optimization core

This file embeds the algorithmic core of the repository in Lean 4 and proves
(or refutes) the specification claims about it:

* the iterative similarity-driven enhancement loop of
  `CV_rewriter/src/core/orchestration/cv_rewriter.py` (`CVRewriter.rewrite`),
* the similarity scoring subsystem
  (`SimilarityCalculator.cosine_similarity` and the confidence rescaling in
  `CVRewriter._calculate_similarity`),
* the retry wrapper `shared/helpers/retry_decorator.py`
  (`retry_on_llm_failure`),
* the lenient structured-response normalization of
  `CV_rewriter/src/services/job_parser.py` and the required-key validation of
  `Anonymizer/src/anonymizer.py`.

Python floats are modelled as real numbers `ℝ`; the backoff delays of the
retry wrapper as rationals `ℚ`; machine effects (LLM generator calls,
embedding calls, sleeps) are made explicit as counters and traces.
-/

namespace Win

/-! ## The iterative enhancement loop (`CVRewriter.rewrite`, loop stage)

The Python loop is

```
current_similarity = sim(current_cv_text)          # initial similarity
for iteration in range(1, MAX_ITER + 1):
    enhanced = enhancer.enhance(current_cv_text, ..., iteration=iteration,
                                similarity_score=current_similarity)
    current_cv_text = enhanced.content
    new_similarity = sim(current_cv_text)
    current_similarity = new_similarity
    if current_similarity >= SIMILARITY_THRESHOLD:
        break
```

The enhancer and the similarity oracle are parameters: `enhance i doc s` is
the document produced by `enhancer.enhance` at iteration number `i` from
working document `doc` and reported similarity `s`, and `sim doc` is the
similarity computed by `_calculate_similarity` against the (fixed) job text.
The similarity values live in an arbitrary linear order so that concrete
instances can be evaluated.
-/

section Loop

variable {α β : Type} [LinearOrder β]

/-- One execution of the `for iteration in range(1, MAX_ITER + 1)` loop body,
with `n` iterations remaining, current iteration number `i`, working document
`doc` and current similarity `s`.  Returns the final working document, the
final similarity, and the number of enhancement calls performed. -/
def enhanceLoop (enhance : ℕ → α → β → α) (sim : α → β) (threshold : β) :
    ℕ → ℕ → α → β → α × β × ℕ
  | 0, _, doc, s => (doc, s, 0)
  | n + 1, i, doc, s =>
    let d := enhance i doc s
    let s' := sim d
    if threshold ≤ s' then (d, s', 1)
    else
      let r := enhanceLoop enhance sim threshold n (i + 1) d s'
      (r.1, r.2.1, r.2.2 + 1)

/-- The enhancement stage of `CVRewriter.rewrite`: compute the initial
similarity, then run the loop starting at iteration number 1. -/
def rewriteLoop (enhance : ℕ → α → β → α) (sim : α → β) (threshold : β)
    (maxIter : ℕ) (doc0 : α) : α × β × ℕ :=
  enhanceLoop enhance sim threshold maxIter 1 doc0 (sim doc0)

/-- The sequence of working documents: `docSeq j` is the working document
after `j` enhancement calls (`docSeq 0` is the input document).  Each call
receives the iteration number and the similarity of the previous document,
exactly as `enhancer.enhance` does. -/
def docSeq (enhance : ℕ → α → β → α) (sim : α → β) (doc0 : α) : ℕ → α
  | 0 => doc0
  | j + 1 =>
    enhance (j + 1) (docSeq enhance sim doc0 j)
      (sim (docSeq enhance sim doc0 j))

variable (enhance : ℕ → α → β → α) (sim : α → β) (threshold : β) (doc0 : α)

theorem enhanceLoop_succ (n i : ℕ) (doc : α) (s : β) :
    enhanceLoop enhance sim threshold (n + 1) i doc s =
      if threshold ≤ sim (enhance i doc s) then
        (enhance i doc s, sim (enhance i doc s), 1)
      else
        ((enhanceLoop enhance sim threshold n (i + 1) (enhance i doc s)
            (sim (enhance i doc s))).1,
         (enhanceLoop enhance sim threshold n (i + 1) (enhance i doc s)
            (sim (enhance i doc s))).2.1,
         (enhanceLoop enhance sim threshold n (i + 1) (enhance i doc s)
            (sim (enhance i doc s))).2.2 + 1) := rfl

theorem docSeq_succ (j : ℕ) :
    docSeq enhance sim doc0 (j + 1) =
      enhance (j + 1) (docSeq enhance sim doc0 j)
        (sim (docSeq enhance sim doc0 j)) := rfl

/-- The loop never performs more enhancement calls than it has fuel. -/
theorem enhanceLoop_count_le :
    ∀ n i doc s, (enhanceLoop enhance sim threshold n i doc s).2.2 ≤ n := by
  intro n
  induction n with
  | zero => intro i doc s; simp [enhanceLoop]
  | succ n ih =>
    intro i doc s
    rw [enhanceLoop_succ]
    split
    · simp
    · simpa using ih (i + 1) _ _

/-- If every similarity recomputed during the next `n` iterations stays below
the threshold, the loop runs all `n` iterations and ends on the document
produced by the last one. -/
theorem enhanceLoop_never (n : ℕ) :
    ∀ j, (∀ m, j < m → m ≤ j + n → sim (docSeq enhance sim doc0 m) < threshold) →
      enhanceLoop enhance sim threshold n (j + 1) (docSeq enhance sim doc0 j)
          (sim (docSeq enhance sim doc0 j)) =
        (docSeq enhance sim doc0 (j + n),
         sim (docSeq enhance sim doc0 (j + n)), n) := by
  induction n with
  | zero => intro j _; simp [enhanceLoop]
  | succ n ih =>
    intro j h
    have hlt : sim (docSeq enhance sim doc0 (j + 1)) < threshold :=
      h (j + 1) (Nat.lt_succ_self j) (by omega)
    rw [enhanceLoop_succ, ← docSeq_succ enhance sim doc0 j,
      if_neg (not_le.mpr hlt),
      ih (j + 1) (fun m hm1 hm2 => h m (by omega) (by omega))]
    have harith : j + 1 + n = j + (n + 1) := by omega
    rw [harith]

/-- If the `k`-th recomputed similarity is the first to reach the threshold
(`1 ≤ k ≤ n`), the loop stops right there: it performs exactly `k`
enhancement calls and returns the `k`-th document and its similarity. -/
theorem enhanceLoop_first (n : ℕ) :
    ∀ j k, 1 ≤ k → k ≤ n →
      threshold ≤ sim (docSeq enhance sim doc0 (j + k)) →
      (∀ m, j < m → m < j + k → sim (docSeq enhance sim doc0 m) < threshold) →
      enhanceLoop enhance sim threshold n (j + 1) (docSeq enhance sim doc0 j)
          (sim (docSeq enhance sim doc0 j)) =
        (docSeq enhance sim doc0 (j + k),
         sim (docSeq enhance sim doc0 (j + k)), k) := by
  induction n with
  | zero => intro j k hk1 hkn hhit hbefore; omega
  | succ n ih =>
    intro j k hk1 hkn hhit hbefore
    rw [enhanceLoop_succ, ← docSeq_succ enhance sim doc0 j]
    rcases Nat.lt_or_ge k 2 with hk2 | hk2
    · -- k = 1: the first recomputed similarity already reaches the threshold
      have hk : k = 1 := by omega
      subst hk
      rw [if_pos hhit]
    · -- k ≥ 2: this iteration stays below the threshold, recurse
      have hlt : sim (docSeq enhance sim doc0 (j + 1)) < threshold :=
        hbefore (j + 1) (Nat.lt_succ_self j) (by omega)
      rw [if_neg (not_le.mpr hlt),
        ih (j + 1) (k - 1) (by omega) (by omega)
          (by have harith : j + 1 + (k - 1) = j + k := by omega
              rw [harith]; exact hhit)
          (fun m hm1 hm2 => hbefore m (by omega) (by omega))]
      have h1 : j + 1 + (k - 1) = j + k := by omega
      have h2 : k - 1 + 1 = k := by omega
      rw [h1, h2]

/-- Whatever the run looks like, the result of the loop is the document reached
after exactly the number of enhancement calls it made, together with that
similarity of that document: the loop never rolls back to an earlier document. -/
theorem enhanceLoop_keeps_last (n : ℕ) :
    ∀ j d s c,
      enhanceLoop enhance sim threshold n (j + 1) (docSeq enhance sim doc0 j)
          (sim (docSeq enhance sim doc0 j)) = (d, s, c) →
      d = docSeq enhance sim doc0 (j + c) ∧
        s = sim (docSeq enhance sim doc0 (j + c)) := by
  induction n with
  | zero =>
    intro j d s c h
    simp only [enhanceLoop, Prod.mk.injEq] at h
    obtain ⟨h1, h2, h3⟩ := h
    subst h1; subst h2; subst h3
    simp
  | succ n ih =>
    intro j d s c h
    rw [enhanceLoop_succ, ← docSeq_succ enhance sim doc0 j] at h
    by_cases hc : threshold ≤ sim (docSeq enhance sim doc0 (j + 1))
    · rw [if_pos hc] at h
      simp only [Prod.mk.injEq] at h
      obtain ⟨h1, h2, h3⟩ := h
      subst h1; subst h2; subst h3
      exact ⟨rfl, rfl⟩
    · rw [if_neg hc] at h
      simp only [Prod.mk.injEq] at h
      obtain ⟨h1, h2, h3⟩ := h
      obtain ⟨g1, g2⟩ := ih (j + 1)
        (enhanceLoop enhance sim threshold n (j + 1 + 1)
          (docSeq enhance sim doc0 (j + 1))
          (sim (docSeq enhance sim doc0 (j + 1)))).1
        (enhanceLoop enhance sim threshold n (j + 1 + 1)
          (docSeq enhance sim doc0 (j + 1))
          (sim (docSeq enhance sim doc0 (j + 1)))).2.1
        (enhanceLoop enhance sim threshold n (j + 1 + 1)
          (docSeq enhance sim doc0 (j + 1))
          (sim (docSeq enhance sim doc0 (j + 1)))).2.2 rfl
      subst h1; subst h2; subst h3
      constructor
      · rw [g1]; congr 1; omega
      · rw [g2]; congr 2; omega

/-- C1.  For every enhancer, similarity oracle, threshold and `maxIter ≥ 1`:
the enhancement loop of `CVRewriter.rewrite` performs at most `maxIter`
enhancement calls; it performs exactly `maxIter` calls when the recomputed
similarity stays below the threshold throughout; and it stops immediately
(with exactly `k` calls, returning the `k`-th document and similarity) the
first time the recomputed similarity reaches the threshold, the comparison
being `threshold ≤ similarity`, so exact equality counts as converged. -/
theorem rewrite_loop_iteration_budget
    (maxIter : ℕ) (hmax : 1 ≤ maxIter) :
    (rewriteLoop enhance sim threshold maxIter doc0).2.2 ≤ maxIter ∧
    ((∀ m, 1 ≤ m → m ≤ maxIter →
        sim (docSeq enhance sim doc0 m) < threshold) →
      (rewriteLoop enhance sim threshold maxIter doc0).2.2 = maxIter) ∧
    (∀ k, 1 ≤ k → k ≤ maxIter →
      threshold ≤ sim (docSeq enhance sim doc0 k) →
      (∀ m, 1 ≤ m → m < k → sim (docSeq enhance sim doc0 m) < threshold) →
      rewriteLoop enhance sim threshold maxIter doc0 =
        (docSeq enhance sim doc0 k, sim (docSeq enhance sim doc0 k), k)) := by
  refine ⟨enhanceLoop_count_le enhance sim threshold maxIter 1 doc0 (sim doc0),
    ?_, ?_⟩
  · intro hnever
    have h := enhanceLoop_never enhance sim threshold doc0 maxIter 0
      (fun m hm1 hm2 => hnever m (by omega) (by omega))
    simp only [docSeq] at h
    unfold rewriteLoop
    rw [h]
  · intro k hk1 hkmax hhit hbefore
    have h := enhanceLoop_first enhance sim threshold doc0 maxIter 0 k hk1 hkmax
      (by simpa using hhit) (fun m hm1 hm2 => hbefore m (by omega) (by omega))
    simp only [docSeq, Nat.zero_add] at h
    unfold rewriteLoop
    simpa using h

/-- A concrete enhancer over `ℕ` documents used to evaluate the loop: each
enhancement call increments the document. -/
def exEnhance : ℕ → ℕ → ℚ → ℕ := fun _ d _ => d + 1

/-- A concrete similarity oracle: the similarity of document `d` is `d`. -/
def exSim : ℕ → ℚ := fun d => (d : ℚ)

/-- C1 witness: with `exEnhance` and `exSim`, threshold `5` and budget `3`,
the similarity never reaches the threshold and the loop makes exactly `3`
enhancement calls; with threshold `2` it stops after `2` calls. -/
theorem rewrite_loop_iteration_budget_witness :
    (rewriteLoop exEnhance exSim 5 3 0).2.2 = 3 ∧
    rewriteLoop exEnhance exSim 2 3 0 =
      (docSeq exEnhance exSim 0 2, exSim (docSeq exEnhance exSim 0 2), 2) := by
  constructor
  · exact (rewrite_loop_iteration_budget exEnhance exSim 5 0 3 (by norm_num)).2.1
      (by intro m hm1 hm2
          interval_cases m <;> norm_num [docSeq, exEnhance, exSim])
  · exact (rewrite_loop_iteration_budget exEnhance exSim 2 0 3 (by norm_num)).2.2
      2 (by norm_num) (by norm_num)
      (by norm_num [docSeq, exEnhance, exSim])
      (by intro m hm1 hm2
          interval_cases m <;> norm_num [docSeq, exEnhance, exSim])

/-- C2.  The enhancement loop never rolls back: however the similarities
evolve (including when an iteration scores lower than the one before it),
the output of each iteration replaces the working document, and the result
is exactly the document reached after all performed enhancement calls,
of the loop is the document reached after all performed enhancement calls
together with its recomputed similarity — never those of an
earlier, better-scoring iteration. -/
theorem rewrite_loop_no_rollback (maxIter : ℕ) :
    (rewriteLoop enhance sim threshold maxIter doc0).1 =
      docSeq enhance sim doc0
        ((rewriteLoop enhance sim threshold maxIter doc0).2.2) ∧
    (rewriteLoop enhance sim threshold maxIter doc0).2.1 =
      sim (docSeq enhance sim doc0
        ((rewriteLoop enhance sim threshold maxIter doc0).2.2)) := by
  have h := enhanceLoop_keeps_last enhance sim threshold doc0 maxIter 0
    (rewriteLoop enhance sim threshold maxIter doc0).1
    (rewriteLoop enhance sim threshold maxIter doc0).2.1
    (rewriteLoop enhance sim threshold maxIter doc0).2.2
    (by unfold rewriteLoop; simp [docSeq])
  simpa using h

end Loop

/-! ## Similarity scoring
(`SimilarityCalculator.cosine_similarity` in `utils/similarity.py` and the
confidence rescaling in `CVRewriter._calculate_similarity`)

```
v1 = np.array(vec1); v2 = np.array(vec2)
if len(v1) == 0 or len(v2) == 0: return 0.0
dot_product = np.dot(v1, v2)
norm1 = np.linalg.norm(v1); norm2 = np.linalg.norm(v2)
if norm1 == 0 or norm2 == 0: return 0.0
return float(dot_product / (norm1 * norm2))
```

and, in `_calculate_similarity` (inside `try ... except (ValueError, TypeError)`):

```
adjusted = 1 / (1 + np.exp(-((similarity * 1.41 + 0.27) ** 1.12))) * 1.46 - 0.23
return min(adjusted, 1.0)
```

When the base `similarity * 1.41 + 0.27` is negative, the Python power
`(base) ** 1.12` is a complex number (principal branch), `np.exp` and the
following arithmetic produce `np.complex128` values, and `min(adjusted, 1.0)`
resolves through the reflected numpy comparison, which orders complex
scalars lexicographically (real parts first, then imaginary parts).  No
exception is raised on that path, so `_calculate_similarity` returns a
complex value there.  The model therefore lives in `ℂ`: `adjustedScore` is
the complex `adjusted`, and `npMinOne` is `min(·, 1.0)` under the
lexicographic comparison.  On a nonnegative base everything stays real and
the function coincides with the real formula `similarityRescaleReal`. -/

/-- The standard logistic sigmoid `1 / (1 + e^(-x))`. -/
noncomputable def sigmoid (x : ℝ) : ℝ := 1 / (1 + Real.exp (-x))

/-- The complex `adjusted` value of `_calculate_similarity`:
`1 / (1 + exp(-((raw*1.41 + 0.27) ** 1.12))) * 1.46 - 0.23`, with the power
taken as the principal-branch complex power (what Python computes; on a
nonnegative real base it agrees with the real power). -/
noncomputable def adjustedScore (raw : ℝ) : ℂ :=
  1 / (1 + Complex.exp (-(((raw * 1.41 + 0.27 : ℝ) : ℂ) ^ ((1.12 : ℝ) : ℂ)))) *
    ((1.46 : ℝ) : ℂ) - ((0.23 : ℝ) : ℂ)

/-- `min(a, 1.0)` as executed on an `np.complex128` scalar `a`: the builtin
`min` returns `1.0` exactly when `1.0 < a`, and numpy compares complex
scalars lexicographically, so `1.0 < a` means `1 < re a`, or `re a = 1`
with `0 < im a`. -/
noncomputable def npMinOne (a : ℂ) : ℂ :=
  if 1 < a.re ∨ (a.re = 1 ∧ 0 < a.im) then 1 else a

/-- The confidence rescaling applied by `CVRewriter._calculate_similarity`
to the raw cosine similarity: `min(adjusted, 1.0)` over `ℂ`. -/
noncomputable def similarityRescale (raw : ℝ) : ℂ :=
  npMinOne (adjustedScore raw)

/-- The real formula the rescaling computes whenever the base
`raw * 1.41 + 0.27` is nonnegative:
`min (sigmoid ((raw*1.41 + 0.27)^1.12) * 1.46 - 0.23) 1`. -/
noncomputable def similarityRescaleReal (raw : ℝ) : ℝ :=
  min (sigmoid ((raw * 1.41 + 0.27) ^ (1.12 : ℝ)) * 1.46 - 0.23) 1

theorem sigmoid_mono : Monotone sigmoid := by
  intro a b hab
  unfold sigmoid
  have h1 : Real.exp (-b) ≤ Real.exp (-a) := Real.exp_le_exp.mpr (by linarith)
  have h2 : 0 < 1 + Real.exp (-b) := by positivity
  exact one_div_le_one_div_of_le h2 (by linarith)

theorem half_le_sigmoid {x : ℝ} (hx : 0 ≤ x) : 1 / 2 ≤ sigmoid x := by
  have h1 : Real.exp (-x) ≤ 1 := by
    rw [← Real.exp_zero]
    exact Real.exp_le_exp.mpr (by linarith)
  have h2 : 0 < 1 + Real.exp (-x) := by positivity
  unfold sigmoid
  exact one_div_le_one_div_of_le h2 (by linarith)

/-- On a nonnegative base the complex `adjusted` value is the real sigmoid
formula: the power, the exponential and the arithmetic all stay real. -/
theorem adjustedScore_of_nonneg {raw : ℝ} (h : 0 ≤ raw * 1.41 + 0.27) :
    adjustedScore raw =
      ((sigmoid ((raw * 1.41 + 0.27) ^ (1.12 : ℝ)) * 1.46 - 0.23 : ℝ) : ℂ) := by
  unfold adjustedScore sigmoid
  rw [← Complex.ofReal_cpow h]
  push_cast
  ring

/-- On a nonnegative base the rescaling is exactly the real formula
`similarityRescaleReal` (the lexicographic `min` degenerates to the real
`min` on real values). -/
theorem similarityRescale_of_nonneg {raw : ℝ} (h : 0 ≤ raw * 1.41 + 0.27) :
    similarityRescale raw = ((similarityRescaleReal raw : ℝ) : ℂ) := by
  unfold similarityRescale npMinOne similarityRescaleReal
  rw [adjustedScore_of_nonneg h]
  simp only [Complex.ofReal_re, Complex.ofReal_im]
  by_cases h1 : 1 < sigmoid ((raw * 1.41 + 0.27) ^ (1.12 : ℝ)) * 1.46 - 0.23
  · rw [if_pos (Or.inl h1), min_eq_right h1.le]
    norm_num
  · have hcond : ¬(1 < sigmoid ((raw * 1.41 + 0.27) ^ (1.12 : ℝ)) * 1.46 - 0.23 ∨
        (sigmoid ((raw * 1.41 + 0.27) ^ (1.12 : ℝ)) * 1.46 - 0.23 = 1 ∧
          (0 : ℝ) < 0)) := by
      rintro (hc | ⟨-, hc⟩)
      · exact h1 hc
      · exact lt_irrefl 0 hc
    rw [if_neg hcond, min_eq_left (not_lt.mp h1)]

/-- On a nonnegative base the real formula value is at least `1/2`. -/
theorem half_le_similarityRescaleReal {raw : ℝ}
    (h : 0 ≤ raw * 1.41 + 0.27) : 1 / 2 ≤ similarityRescaleReal raw := by
  unfold similarityRescaleReal
  have hg : (0 : ℝ) ≤ (raw * 1.41 + 0.27) ^ (1.12 : ℝ) := Real.rpow_nonneg h _
  have hs := half_le_sigmoid hg
  refine le_min (by nlinarith) (by norm_num)

/-- The real formula never exceeds the cap. -/
theorem similarityRescaleReal_le_one (raw : ℝ) :
    similarityRescaleReal raw ≤ 1 := min_le_right _ _

/-- The real formula is monotone on the nonnegative-base subdomain. -/
theorem similarityRescaleReal_monotoneOn :
    MonotoneOn similarityRescaleReal {raw : ℝ | 0 ≤ raw * 1.41 + 0.27} := by
  intro x hx y hy hxy
  simp only [Set.mem_setOf_eq] at hx hy
  unfold similarityRescaleReal
  refine min_le_min ?_ le_rfl
  have hbase : x * 1.41 + 0.27 ≤ y * 1.41 + 0.27 := by nlinarith
  have hr : (x * 1.41 + 0.27) ^ (1.12 : ℝ) ≤ (y * 1.41 + 0.27) ^ (1.12 : ℝ) :=
    Real.rpow_le_rpow hx hbase (by norm_num)
  have hs := sigmoid_mono hr
  nlinarith

/-- Taylor lower bound `exp (17/10) ≥ 123/23` (six terms suffice). -/
theorem exp_seventeen_tenths_lb : (123 / 23 : ℝ) ≤ Real.exp (17 / 10) := by
  have h := Real.sum_le_exp_of_nonneg (by norm_num : (0 : ℝ) ≤ 17 / 10) 6
  refine le_trans ?_ h
  norm_num [Finset.sum_range_succ, Nat.factorial]

/-- Beyond `g ≥ 1.7` the sigmoid is at least `123/146`, the level at which
`sigmoid * 1.46 - 0.23` reaches the cap `1.0`. -/
theorem sigmoid_ge_clamp {g : ℝ} (hg : (17 / 10 : ℝ) ≤ g) :
    (123 / 146 : ℝ) ≤ sigmoid g := by
  refine le_trans ?_ (sigmoid_mono hg)
  unfold sigmoid
  have he : Real.exp (-(17 / 10)) ≤ 23 / 123 := by
    rw [Real.exp_neg]
    calc (Real.exp (17 / 10))⁻¹ ≤ ((123 / 23 : ℝ))⁻¹ :=
          inv_le_inv_of_le (by norm_num) exp_seventeen_tenths_lb
      _ = 23 / 123 := by norm_num
  have hpos : 0 < 1 + Real.exp (-(17 / 10)) := by positivity
  calc (123 / 146 : ℝ) = 1 / (146 / 123) := by norm_num
    _ ≤ 1 / (1 + Real.exp (-(17 / 10))) :=
        one_div_le_one_div_of_le hpos (by linarith)

/-- `1.6659 ^ 1.12 ≥ 1.7`, via the equivalent integer-power inequality
`1.6659 ^ 28 ≥ 1.7 ^ 25` (note `1.12 * 25 = 28`). -/
theorem rpow_16659_ge : (17 / 10 : ℝ) ≤ (1.6659 : ℝ) ^ (1.12 : ℝ) := by
  by_contra hcon
  push_neg at hcon
  have hnn : (0 : ℝ) ≤ (1.6659 : ℝ) ^ (1.12 : ℝ) :=
    Real.rpow_nonneg (by norm_num) _
  have h25 : ((1.6659 : ℝ) ^ (1.12 : ℝ)) ^ (25 : ℕ) <
      (17 / 10 : ℝ) ^ (25 : ℕ) := by
    exact pow_lt_pow_left hcon hnn (by norm_num)
  have hid : ((1.6659 : ℝ) ^ (1.12 : ℝ)) ^ (25 : ℕ) =
      (1.6659 : ℝ) ^ (28 : ℕ) := by
    rw [← Real.rpow_natCast ((1.6659 : ℝ) ^ (1.12 : ℝ)) 25,
      ← Real.rpow_mul (by norm_num : (0 : ℝ) ≤ 1.6659),
      ← Real.rpow_natCast (1.6659 : ℝ) 28]
    congr 1
    norm_num
  rw [hid] at h25
  have hcmp : (17 / 10 : ℝ) ^ (25 : ℕ) ≤ (1.6659 : ℝ) ^ (28 : ℕ) := by
    norm_num
  linarith

/-- When the `1.12`-th power of the (nonnegative) base reaches `1.7`, the
sigmoid formula meets the cap and the rescaled value is exactly `1.0`. -/
theorem similarityRescaleReal_clamped {raw : ℝ}
    (hg : (17 / 10 : ℝ) ≤ (raw * 1.41 + 0.27) ^ (1.12 : ℝ)) :
    similarityRescaleReal raw = 1 := by
  unfold similarityRescaleReal
  have hs := sigmoid_ge_clamp hg
  exact min_eq_right (by nlinarith)

/-- The cap is reached at raw similarity `0.99` (base `1.6659`). -/
theorem similarityRescaleReal_at_099 : similarityRescaleReal 0.99 = 1 := by
  refine similarityRescaleReal_clamped ?_
  have hb : (0.99 : ℝ) * 1.41 + 0.27 = 1.6659 := by norm_num
  rw [hb]
  exact rpow_16659_ge

/-- The cap is also reached at raw similarity `1` (base `1.68`). -/
theorem similarityRescaleReal_at_one : similarityRescaleReal 1 = 1 := by
  refine similarityRescaleReal_clamped ?_
  have hb : (1 : ℝ) * 1.41 + 0.27 = 1.68 := by norm_num
  rw [hb]
  calc (17 / 10 : ℝ) ≤ (1.6659 : ℝ) ^ (1.12 : ℝ) := rpow_16659_ge
    _ ≤ (1.68 : ℝ) ^ (1.12 : ℝ) :=
        Real.rpow_le_rpow (by norm_num) (by norm_num) (by norm_num)

/-- On a negative base the principal-branch power `base ^ 1.12` has nonzero
imaginary part, so `_calculate_similarity` computes in `ℂ` there. -/
theorem cpow_neg_base_not_real {b : ℝ} (hb : b < 0) :
    (((b : ℂ)) ^ ((1.12 : ℝ) : ℂ)).im ≠ 0 := by
  rw [Complex.cpow_ofReal]
  simp only [Complex.arg_ofReal_of_neg hb, Complex.abs_ofReal, Complex.mul_im,
    Complex.ofReal_re, Complex.ofReal_im, Complex.add_re, Complex.add_im,
    Complex.mul_re, Complex.I_re, Complex.I_im, mul_zero, mul_one, zero_mul,
    sub_zero, zero_add, add_zero]
  have hsin : Real.sin (Real.pi * 1.12) < 0 := by
    have hsplit : Real.pi * 1.12 = 0.12 * Real.pi + Real.pi := by ring
    rw [hsplit, Real.sin_add_pi]
    have hpos : 0 < Real.sin (0.12 * Real.pi) :=
      Real.sin_pos_of_pos_of_lt_pi (by positivity)
        (by nlinarith [Real.pi_pos])
    linarith
  have habs : (0 : ℝ) < |b| ^ (1.12 : ℝ) :=
    Real.rpow_pos_of_pos (abs_pos.mpr hb.ne) _
  exact mul_ne_zero (ne_of_gt habs) (ne_of_lt hsin)

/-- C4 counterexample: the rescaled score is not strictly increasing in the
raw cosine similarity over `[-1, 1]`: the cap `min(adjusted, 1.0)` is
reached strictly inside the interval, so the distinct raw similarities
`0.99` and `1` both rescale to exactly `1.0`. -/
theorem similarityRescale_not_strictly_increasing :
    ((0.99 : ℝ) < 1) ∧
      similarityRescale 0.99 = 1 ∧ similarityRescale 1 = 1 := by
  refine ⟨by norm_num, ?_, ?_⟩
  · rw [similarityRescale_of_nonneg (by norm_num), similarityRescaleReal_at_099]
    norm_num
  · rw [similarityRescale_of_nonneg (by norm_num), similarityRescaleReal_at_one]
    norm_num

/-- C4 amended.  Whenever the base `raw * 1.41 + 0.27` is nonnegative
(raw ≥ -0.27/1.41, covering most of `[-1, 1]`) the code computes the real
value `adjusted = sigmoid((raw*1.41 + 0.27)^1.12) * 1.46 - 0.23` clamped
above at `1.0` with no lower clamp, that value lies in `[1/2, 1]`, and it
is monotone non-decreasing in the raw similarity on that subdomain — but it
is not strictly increasing over `[-1, 1]`: the upper clamp is reached
inside the interval (raw `0.99` and `1` both yield exactly `1.0`).  When
the base is negative the fractional power is a complex number with nonzero
imaginary part, the arithmetic continues in `np.complex128`, and numpy's
lexicographic complex comparison lets `min(adjusted, 1.0)` return that
complex value, so the real formula and real monotone increase do not apply
on the whole of `[-1, 1]`. -/
theorem similarityRescale_spec :
    (∀ raw : ℝ, 0 ≤ raw * 1.41 + 0.27 →
      similarityRescale raw = ((similarityRescaleReal raw : ℝ) : ℂ)) ∧
    (∀ raw : ℝ, 0 ≤ raw * 1.41 + 0.27 →
      1 / 2 ≤ similarityRescaleReal raw ∧ similarityRescaleReal raw ≤ 1) ∧
    MonotoneOn similarityRescaleReal {raw : ℝ | 0 ≤ raw * 1.41 + 0.27} ∧
    (∀ raw : ℝ, raw * 1.41 + 0.27 < 0 →
      ((((raw * 1.41 + 0.27 : ℝ) : ℂ)) ^ ((1.12 : ℝ) : ℂ)).im ≠ 0) ∧
    similarityRescaleReal 0.99 = 1 ∧ similarityRescaleReal 1 = 1 :=
  ⟨fun _ h => similarityRescale_of_nonneg h,
   fun raw h => ⟨half_le_similarityRescaleReal h, similarityRescaleReal_le_one raw⟩,
   similarityRescaleReal_monotoneOn,
   fun _ h => cpow_neg_base_not_real h,
   similarityRescaleReal_at_099,
   similarityRescaleReal_at_one⟩

/-- C4 witness: the amended statement at concrete raw similarities — the
real-formula bridge and bounds at `0`, monotonicity applied at `0 ≤ 1/2`,
and the non-real power at `-1` (base `-1.14`). -/
theorem similarityRescale_spec_witness :
    similarityRescale 0 = ((similarityRescaleReal 0 : ℝ) : ℂ) ∧
      (1 / 2 : ℝ) ≤ similarityRescaleReal 0 ∧
      similarityRescaleReal 0 ≤ similarityRescaleReal (1 / 2) ∧
      ((((-1 : ℝ) * 1.41 + 0.27 : ℝ) : ℂ) ^ ((1.12 : ℝ) : ℂ)).im ≠ 0 :=
  ⟨similarityRescale_spec.1 0 (by norm_num),
   (similarityRescale_spec.2.1 0 (by norm_num)).1,
   similarityRescale_spec.2.2.1
     (by simp only [Set.mem_setOf_eq]; norm_num)
     (by simp only [Set.mem_setOf_eq]; norm_num)
     (by norm_num),
   similarityRescale_spec.2.2.2.1 (-1) (by norm_num)⟩

/-! ## The retry wrapper (`shared/helpers/retry_decorator.py`)

```
async def wrapper(*args, **kwargs):
    last_exception = None
    for attempt in range(max_retries):
        try:
            return await func(*args, **kwargs)
        except (BadLLMResponseError, ProviderError) as e:
            last_exception = e
            if attempt < max_retries - 1:
                await asyncio.sleep(0.5 * (2 ** attempt))
    if last_exception:
        raise last_exception
```

The wrapped operation is modelled as `f : ℕ → Outcome γ` giving each
outcome of each attempt; an exception is a kind (its Python class) plus a
numeric identity, so that "the exact exception object" is expressible.  The
run returns the wrapper's result, the number of invocations of `f`, and the
list of backoff sleeps performed (in time units, `0.5 * 2 ^ attempt`). -/

/-- The exception classes relevant to the pipeline. -/
inductive ErrKind : Type
  | valueError
  | badLLM
  | provider
  | other
deriving DecidableEq, Repr

/-- Which exception classes the retry wrapper's `except` clause catches:
exactly `BadLLMResponseError` and `ProviderError`. -/
def recoverableKind : ErrKind → Bool
  | .badLLM => true
  | .provider => true
  | _ => false

/-- An exception object: its class and an identity distinguishing it from
other objects of the same class. -/
abbrev Exc : Type := ErrKind × ℕ

def isRecoverableExc (e : Exc) : Bool := recoverableKind e.1

/-- The outcome of a single invocation of the wrapped operation. -/
inductive Outcome (γ : Type) : Type
  | ok (a : γ)
  | exc (e : Exc)
deriving DecidableEq, Repr

/-- What the wrapper does in the end: return a value, raise an exception, or
fall off the loop returning the implicit Python `None`. -/
inductive RetryResult (γ : Type) : Type
  | success (a : γ)
  | raised (e : Exc)
  | noResult
deriving DecidableEq, Repr

/-- The retry loop with `remaining` attempts left, the current `attempt`
index and the current `last_exception`.  The invariant maintained by
`retryRun` is `attempt + remaining = max_retries`, so the source's
`attempt < max_retries - 1` test ("is this not the final attempt?") is the
test `remaining ≠ 1`, i.e. `r ≠ 0` after peeling one attempt. -/
def retryAux {γ : Type} (f : ℕ → Outcome γ) :
    ℕ → ℕ → Option Exc → RetryResult γ × ℕ × List ℚ
  | 0, _, last =>
    ((match last with
      | some e => RetryResult.raised e
      | none => RetryResult.noResult), 0, [])
  | r + 1, attempt, _ =>
    match f attempt with
    | .ok a => (.success a, 1, [])
    | .exc e =>
      if isRecoverableExc e then
        if r = 0 then
          ((retryAux f r (attempt + 1) (some e)).1,
           (retryAux f r (attempt + 1) (some e)).2.1 + 1,
           (retryAux f r (attempt + 1) (some e)).2.2)
        else
          ((retryAux f r (attempt + 1) (some e)).1,
           (retryAux f r (attempt + 1) (some e)).2.1 + 1,
           (1 / 2 : ℚ) * 2 ^ attempt :: (retryAux f r (attempt + 1) (some e)).2.2)
      else (.raised e, 1, [])

/-- A call of the function wrapped by `retry_on_llm_failure(max_retries)`:
result, number of invocations of the wrapped operation, and backoff sleeps. -/
def retryRun {γ : Type} (f : ℕ → Outcome γ) (maxRetries : ℕ) :
    RetryResult γ × ℕ × List ℚ :=
  retryAux f maxRetries 0 none

/-- Unfolding equation: a successful attempt returns at once. -/
theorem retryAux_ok {γ : Type} {f : ℕ → Outcome γ} {r attempt : ℕ}
    {last : Option Exc} {a : γ} (h : f attempt = .ok a) :
    retryAux f (r + 1) attempt last = (.success a, 1, []) := by
  conv_lhs => unfold retryAux
  rw [h]

/-- Unfolding equation: a non-recoverable exception propagates at once. -/
theorem retryAux_exc_fatal {γ : Type} {f : ℕ → Outcome γ} {r attempt : ℕ}
    {last : Option Exc} {e : Exc} (h : f attempt = .exc e)
    (hrec : isRecoverableExc e = false) :
    retryAux f (r + 1) attempt last = (.raised e, 1, []) := by
  conv_lhs => unfold retryAux
  rw [h]
  simp [hrec]

/-- Unfolding equation: a recoverable exception on a non-final attempt
(`r ≠ 0` more attempts remain) sleeps and retries. -/
theorem retryAux_exc_retry {γ : Type} {f : ℕ → Outcome γ} {r attempt : ℕ}
    {last : Option Exc} {e : Exc} (h : f attempt = .exc e)
    (hrec : isRecoverableExc e = true) (hr : r ≠ 0) :
    retryAux f (r + 1) attempt last =
      ((retryAux f r (attempt + 1) (some e)).1,
       (retryAux f r (attempt + 1) (some e)).2.1 + 1,
       (1 / 2 : ℚ) * 2 ^ attempt :: (retryAux f r (attempt + 1) (some e)).2.2) := by
  conv_lhs => unfold retryAux
  rw [h]
  simp [hrec, hr]

/-- Unfolding equation: a recoverable exception on the final attempt ends the
loop, which then re-raises it (no sleep). -/
theorem retryAux_exc_final {γ : Type} {f : ℕ → Outcome γ} {attempt : ℕ}
    {last : Option Exc} {e : Exc} (h : f attempt = .exc e)
    (hrec : isRecoverableExc e = true) :
    retryAux f (0 + 1) attempt last = (.raised e, 1, []) := by
  conv_lhs => unfold retryAux
  rw [h]
  simp only [hrec, if_true, if_pos rfl]
  simp [retryAux]

/-- The wrapper invokes the operation at most `remaining` more times. -/
theorem retryAux_count_le {γ : Type} (f : ℕ → Outcome γ) :
    ∀ r attempt last, (retryAux f r attempt last).2.1 ≤ r := by
  intro r
  induction r with
  | zero => intro attempt last; simp [retryAux]
  | succ r ih =>
    intro attempt last
    cases hf : f attempt with
    | ok a => rw [retryAux_ok hf]; simp
    | exc e =>
      by_cases hrec : isRecoverableExc e = true
      · by_cases hr : r = 0
        · subst hr
          rw [retryAux_exc_final hf hrec]
        · rw [retryAux_exc_retry hf hrec hr]
          exact Nat.succ_le_succ (ih (attempt + 1) (some e))
      · rw [retryAux_exc_fatal hf (by simpa using hrec)]
        simp

/-- If the `k` attempts before (relative) position `k` fail with recoverable
exceptions and attempt `k` succeeds, the wrapper returns that success after
exactly `k + 1` invocations, never invoking the operation again. -/
theorem retryAux_success {γ : Type} (f : ℕ → Outcome γ) :
    ∀ r attempt last k a, k < r → f (attempt + k) = .ok a →
      (∀ j, j < k → ∃ e, f (attempt + j) = .exc e ∧ isRecoverableExc e = true) →
      (retryAux f r attempt last).1 = .success a ∧
        (retryAux f r attempt last).2.1 = k + 1 := by
  intro r
  induction r with
  | zero => intro attempt last k a hk; omega
  | succ r ih =>
    intro attempt last k a hk hfk hbefore
    cases k with
    | zero =>
      simp only [Nat.add_zero] at hfk
      rw [retryAux_ok hfk]
      exact ⟨rfl, rfl⟩
    | succ k =>
      obtain ⟨e, hfe, hrec⟩ := hbefore 0 (Nat.succ_pos k)
      simp only [Nat.add_zero] at hfe
      have hrest := ih (attempt + 1) (some e) k a (by omega)
        (by have harith : attempt + 1 + k = attempt + (k + 1) := by omega
            rw [harith]; exact hfk)
        (fun j hj => by
          obtain ⟨e2, he2, hr2⟩ := hbefore (j + 1) (by omega)
          refine ⟨e2, ?_, hr2⟩
          have harith : attempt + 1 + j = attempt + (j + 1) := by omega
          rw [harith]; exact he2)
      have hr0 : r ≠ 0 := by omega
      rw [retryAux_exc_retry hfe hrec hr0]
      refine ⟨hrest.1, ?_⟩
      show (retryAux f r (attempt + 1) (some e)).2.1 + 1 = k + 1 + 1
      rw [hrest.2]

/-- Cons form of the backoff-delay list. -/
theorem sleepList_succ (attempt r : ℕ) :
    (List.range (r + 1)).map (fun i => (1 / 2 : ℚ) * 2 ^ (attempt + i)) =
      (1 / 2 : ℚ) * 2 ^ attempt ::
        (List.range r).map (fun i => (1 / 2 : ℚ) * 2 ^ (attempt + 1 + i)) := by
  rw [List.range_succ_eq_map, List.map_cons, List.map_map]
  refine congrArg₂ List.cons (by norm_num) ?_
  apply List.map_congr_left
  intro i hi
  simp only [Function.comp_apply, Nat.succ_eq_add_one]
  have hexp : attempt + (i + 1) = attempt + 1 + i := by omega
  rw [hexp]

/-- If every one of the `r` remaining attempts fails with a recoverable
exception, the wrapper performs all of them, sleeps `0.5 * 2 ^ attempt`
after each one except the last, and re-raises the exact exception object of
the last attempt. -/
theorem retryAux_all_fail {γ : Type} (f : ℕ → Outcome γ) :
    ∀ r attempt last, 1 ≤ r →
      (∀ j, j < r → ∃ e, f (attempt + j) = .exc e ∧ isRecoverableExc e = true) →
      ∀ e2, f (attempt + (r - 1)) = .exc e2 →
      retryAux f r attempt last =
        (.raised e2, r,
         (List.range (r - 1)).map (fun i => (1 / 2 : ℚ) * 2 ^ (attempt + i))) := by
  intro r
  induction r with
  | zero => intro attempt last h1; omega
  | succ r ih =>
    intro attempt last _ hall e2 hlast
    obtain ⟨e, hfe, hrec⟩ := hall 0 (Nat.succ_pos r)
    simp only [Nat.add_zero] at hfe
    cases r with
    | zero =>
      simp only [Nat.sub_self, Nat.add_zero] at hlast
      rw [hfe] at hlast
      cases hlast
      rw [retryAux_exc_final hfe hrec]
      simp
    | succ r =>
      have hrest := ih (attempt + 1) (some e) (by omega)
        (fun j hj => by
          obtain ⟨e3, he3, hr3⟩ := hall (j + 1) (by omega)
          refine ⟨e3, ?_, hr3⟩
          have harith : attempt + 1 + j = attempt + (j + 1) := by omega
          rw [harith]; exact he3)
        e2 (by
          have harith : attempt + 1 + (r + 1 - 1) = attempt + (r + 1 + 1 - 1) := by
            omega
          rw [harith]; exact hlast)
      rw [retryAux_exc_retry hfe hrec (by omega), hrest]
      have hcount : r + 1 + 1 - 1 = r + 1 := rfl
      rw [hcount, sleepList_succ attempt r]
      rfl

/-- If the attempts before position `k` fail recoverably and attempt `k`
raises a non-recoverable exception, the wrapper re-raises it at once:
`k + 1` invocations in total and no sleep after the fatal attempt. -/
theorem retryAux_fatal {γ : Type} (f : ℕ → Outcome γ) :
    ∀ r attempt last k e, k < r →
      (∀ j, j < k → ∃ e2, f (attempt + j) = .exc e2 ∧ isRecoverableExc e2 = true) →
      f (attempt + k) = .exc e → isRecoverableExc e = false →
      retryAux f r attempt last =
        (.raised e, k + 1,
         (List.range k).map (fun i => (1 / 2 : ℚ) * 2 ^ (attempt + i))) := by
  intro r
  induction r with
  | zero => intro attempt last k e hk; omega
  | succ r ih =>
    intro attempt last k e hk hbefore hfk hfatal
    cases k with
    | zero =>
      simp only [Nat.add_zero] at hfk
      rw [retryAux_exc_fatal hfk hfatal]
      simp
    | succ k =>
      obtain ⟨e0, hfe0, hrec0⟩ := hbefore 0 (Nat.succ_pos k)
      simp only [Nat.add_zero] at hfe0
      have hrest := ih (attempt + 1) (some e0) k e (by omega)
        (fun j hj => by
          obtain ⟨e3, he3, hr3⟩ := hbefore (j + 1) (by omega)
          refine ⟨e3, ?_, hr3⟩
          have harith : attempt + 1 + j = attempt + (j + 1) := by omega
          rw [harith]; exact he3)
        (by have harith : attempt + 1 + k = attempt + (k + 1) := by omega
            rw [harith]; exact hfk)
        hfatal
      rw [retryAux_exc_retry hfe0 hrec0 (by omega), hrest, sleepList_succ attempt k]

/-- Dropping the zero attempt offset from a backoff-delay list. -/
theorem sleepList_zero_attempt (k : ℕ) :
    (List.range k).map (fun i => (1 / 2 : ℚ) * 2 ^ (0 + i)) =
      (List.range k).map (fun i => (1 / 2 : ℚ) * 2 ^ i) := by
  apply List.map_congr_left
  intro i hi
  rw [Nat.zero_add]

/-- C5.  For every wrapped operation and retry budget `N ≥ 1`: the wrapper
invokes the operation at most `N` times; after a successful attempt it
returns that value at once (no further invocations); and when all `N`
attempts fail with recoverable errors (`BadLLMResponseError` or
`ProviderError`) it sleeps `0.5 * 2 ^ attempt` between consecutive attempts
(exponents `0 .. N-2`, none after the last) and re-raises the exact
exception object of the last failed attempt. -/
theorem retry_policy_spec {γ : Type} (f : ℕ → Outcome γ) (N : ℕ)
    (hN : 1 ≤ N) :
    (retryRun f N).2.1 ≤ N ∧
    (∀ k a, k < N → f k = .ok a →
      (∀ j, j < k → ∃ e, f j = .exc e ∧ isRecoverableExc e = true) →
      (retryRun f N).1 = .success a ∧ (retryRun f N).2.1 = k + 1) ∧
    ((∀ j, j < N → ∃ e, f j = .exc e ∧ isRecoverableExc e = true) →
      (retryRun f N).2.2 =
        (List.range (N - 1)).map (fun i => (1 / 2 : ℚ) * 2 ^ i) ∧
      ∀ e, f (N - 1) = .exc e → (retryRun f N).1 = .raised e) := by
  refine ⟨retryAux_count_le f N 0 none, ?_, ?_⟩
  · intro k a hk hfk hbefore
    exact retryAux_success f N 0 none k a hk
      (by rw [Nat.zero_add]; exact hfk)
      (fun j hj => by
        obtain ⟨e, he, hr⟩ := hbefore j hj
        exact ⟨e, by rw [Nat.zero_add]; exact he, hr⟩)
  · intro hall
    obtain ⟨elast, helast, -⟩ := hall (N - 1) (by omega)
    have h := retryAux_all_fail f N 0 none hN
      (fun j hj => by
        obtain ⟨e, he, hr⟩ := hall j hj
        exact ⟨e, by rw [Nat.zero_add]; exact he, hr⟩)
      elast (by rw [Nat.zero_add]; exact helast)
    constructor
    · show (retryRun f N).2.2 = _
      unfold retryRun
      rw [h]
      exact sleepList_zero_attempt (N - 1)
    · intro e he
      have he' : e = elast := by
        rw [he] at helast
        cases helast
        rfl
      subst he'
      unfold retryRun
      rw [h]

/-- A concrete operation whose every attempt fails with a recoverable
provider error carrying the attempt index as identity. -/
def exOpRecover : ℕ → Outcome ℕ := fun k => .exc (.provider, k)

/-- C5 witness: with budget 2 and `exOpRecover`, the wrapper makes both
attempts, sleeps `0.5 * 2^0` once, and re-raises the exception object of
the second attempt. -/
theorem retry_policy_spec_witness :
    (retryRun exOpRecover 2).2.1 ≤ 2 ∧
    (retryRun exOpRecover 2).2.2 = [(1 / 2 : ℚ)] ∧
    (retryRun exOpRecover 2).1 = .raised (.provider, 1) := by
  obtain ⟨h1, h2, h3⟩ := retry_policy_spec exOpRecover 2 (by norm_num)
  have h4 := h3 (fun j hj => ⟨(ErrKind.provider, j), rfl, rfl⟩)
  refine ⟨h1, ?_, h4.2 (ErrKind.provider, 1) rfl⟩
  rw [h4.1]
  norm_num [List.range_succ]

/-- C6.  If the attempts before position `k` fail with recoverable errors
and attempt `k` raises an exception that is not one of the classified
recoverable types, the wrapper propagates that exact exception immediately:
exactly `k + 1` invocations (none after the failing one) and no backoff
sleep for the fatal attempt — the sleep list contains only the `k` sleeps of
the earlier recoverable failures. -/
theorem retry_fatal_propagates {γ : Type} (f : ℕ → Outcome γ) (N k : ℕ)
    (e : Exc) (hk : k < N)
    (hbefore : ∀ j, j < k → ∃ e2, f j = .exc e2 ∧ isRecoverableExc e2 = true)
    (hfk : f k = .exc e) (hfatal : isRecoverableExc e = false) :
    retryRun f N =
      (.raised e, k + 1,
       (List.range k).map (fun i => (1 / 2 : ℚ) * 2 ^ i)) := by
  have h := retryAux_fatal f N 0 none k e hk
    (fun j hj => by
      obtain ⟨e2, he2, hr2⟩ := hbefore j hj
      exact ⟨e2, by rw [Nat.zero_add]; exact he2, hr2⟩)
    (by rw [Nat.zero_add]; exact hfk) hfatal
  unfold retryRun
  rw [h, sleepList_zero_attempt k]

/-- A concrete operation: a recoverable provider error on attempt 0, then a
fatal `ValueError` on every later attempt. -/
def exOpFatal : ℕ → Outcome ℕ :=
  fun k => if k = 0 then .exc (.provider, 7) else .exc (.valueError, 3)

/-- C6 witness: with budget 3 and `exOpFatal`, the wrapper stops after the
fatal second attempt: 2 invocations, the `ValueError` re-raised, and only
the one backoff sleep of the first (recoverable) failure. -/
theorem retry_fatal_propagates_witness :
    retryRun exOpFatal 3 =
      (.raised (.valueError, 3), 2, [(1 / 2 : ℚ)]) := by
  have h := retry_fatal_propagates exOpFatal 3 1 (ErrKind.valueError, 3)
    (by norm_num)
    (fun j hj => by
      have hj0 : j = 0 := by omega
      subst hj0
      exact ⟨(ErrKind.provider, 7), rfl, rfl⟩)
    rfl rfl
  rw [h]
  norm_num [List.range_succ]

/-- C10.  A wrapper configured with `max_retries = 0` never invokes the
wrapped operation: the `for attempt in range(0)` loop body never runs,
`last_exception` stays `None`, and the function falls through, returning
the implicit Python `None` without raising. -/
theorem retry_zero_budget {γ : Type} (f : ℕ → Outcome γ) :
    retryRun f 0 = (.noResult, 0, []) := rfl

/-! ## Structured-response normalization
(`JobParser._normalize_to_string_list`, `JobParser._parse_response` in
`CV_rewriter/src/services/job_parser.py`, and the required-key validation in
`Anonymizer/src/anonymizer.py`)

Parsed JSON/Python values are modelled by `PyVal` (JSON numbers restricted
to integers, which is all the claims exercise); `truthy` is the Python truth
test and `pyStr` is the Python `str()`. -/

/-- A Python value as produced by `json.loads` plus `None`/`bool`. -/
inductive PyVal : Type
  | none
  | bool (b : Bool)
  | int (n : ℤ)
  | str (s : String)
  | list (items : List PyVal)
  | dict (entries : List (String × PyVal))

/-- Python truthiness: `None`, `False`, `0`, `""`, `[]` and `{}` are falsy. -/
def truthy : PyVal → Bool
  | .none => false
  | .bool b => b
  | .int n => n != 0
  | .str s => s != ""
  | .list items => !items.isEmpty
  | .dict entries => !entries.isEmpty

/-- Python `repr` of a string: single-quoted, switching to double quotes
when the string contains a single quote but no double quote, escaping
backslashes and the chosen quote. -/
def pyReprStr (s : String) : String :=
  let sq := String.singleton (Char.ofNat 39)
  let dq := String.singleton (Char.ofNat 34)
  let bs := String.singleton (Char.ofNat 92)
  let escaped := s.replace bs (bs ++ bs)
  if s.contains (Char.ofNat 39) && !s.contains (Char.ofNat 34) then
    dq ++ escaped ++ dq
  else
    sq ++ escaped.replace sq (bs ++ sq) ++ sq

mutual

/-- Python `repr` of a value. -/
def pyRepr : PyVal → String
  | .none => "None"
  | .bool true => "True"
  | .bool false => "False"
  | .int n => toString n
  | .str s => pyReprStr s
  | .list items => "[" ++ pyReprListAux items ++ "]"
  | .dict entries => "\x7b" ++ pyReprDictAux entries ++ "\x7d"

/-- Comma-separated `repr`s of list elements. -/
def pyReprListAux : List PyVal → String
  | [] => ""
  | [x] => pyRepr x
  | x :: y :: rest => pyRepr x ++ ", " ++ pyReprListAux (y :: rest)

/-- Comma-separated `key: value` `repr`s of dict entries. -/
def pyReprDictAux : List (String × PyVal) → String
  | [] => ""
  | [(k, v)] => pyReprStr k ++ ": " ++ pyRepr v
  | (k, v) :: e :: rest =>
    pyReprStr k ++ ": " ++ pyRepr v ++ ", " ++ pyReprDictAux (e :: rest)

end

/-- Python `str()`: the identity on strings, `repr` otherwise (which
coincides with `str` on `None`, booleans, integers, lists and dicts). -/
def pyStr : PyVal → String
  | .str s => s
  | v => pyRepr v

mutual

/-- The function `JobParser._normalize_to_string_list`:

```
if not value: return []
if isinstance(value, list): ...            # normListItems
elif isinstance(value, dict): ...          # normDictVals
elif isinstance(value, str): return [value]
else: return [str(value)]
``` -/
def normalizeToStringList (value : PyVal) : List String :=
  if truthy value = false then []
  else
    match value with
    | .list items => normListItems items
    | .dict entries => normDictVals entries
    | .str s => [s]
    | v => [pyStr v]

/-- The list branch: strings are kept, a dict contributes its truthy values
stringified and joined by `" - "` (nothing when it has no truthy value),
anything else contributes its `str()`. -/
def normListItems : List PyVal → List String
  | [] => []
  | item :: rest =>
    match item with
    | .str s => s :: normListItems rest
    | .dict entries =>
      let dictValues :=
        ((entries.map Prod.snd).filter (fun v => truthy v)).map pyStr
      if dictValues.isEmpty then normListItems rest
      else String.intercalate " - " dictValues :: normListItems rest
    | v => pyStr v :: normListItems rest

/-- The dict branch: iterate over the values; strings are kept, list values
are normalized recursively and spliced in, anything else contributes its
`str()`. -/
def normDictVals : List (String × PyVal) → List String
  | [] => []
  | (_, v) :: rest =>
    match v with
    | .str s => s :: normDictVals rest
    | .list items => normalizeToStringList (.list items) ++ normDictVals rest
    | v2 => pyStr v2 :: normDictVals rest

end

/-- C8.  Normalizing a list-typed field always yields a list of strings (the
Lean return type; every branch of the Python function is total, so it never
raises): falsy values (`None`, `""`, `[]`, `{}`, `0`, `False`) yield `[]`, a
non-empty string becomes a one-element list, a dict inside a list becomes
its truthy values stringified and joined by `" - "`, a dict has its values
flattened into a list, and any other truthy value becomes the one-element
list of its `str()` form — verified structurally and on the eight sample
inputs given by the spec. -/
theorem normalize_to_string_list_spec :
    (∀ v : PyVal, truthy v = false → normalizeToStringList v = []) ∧
    (∀ s : String, s ≠ "" → normalizeToStringList (.str s) = [s]) ∧
    (∀ n : ℤ, n ≠ 0 → normalizeToStringList (.int n) = [toString n]) ∧
    (∀ entries : List (String × PyVal),
      normalizeToStringList (.list [.dict entries]) =
        (if (((entries.map Prod.snd).filter (fun v => truthy v)).map pyStr).isEmpty
         then []
         else [String.intercalate " - "
           (((entries.map Prod.snd).filter (fun v => truthy v)).map pyStr)])) ∧
    (normalizeToStringList .none = [] ∧
     normalizeToStringList (.str "") = [] ∧
     normalizeToStringList (.str "abc") = ["abc"] ∧
     normalizeToStringList (.list [.str "a", .str "b"]) = ["a", "b"] ∧
     normalizeToStringList (.list [.dict [("x", .int 1)]]) = ["1"] ∧
     normalizeToStringList (.dict [("a", .str "b"), ("c", .str "d")]) =
       ["b", "d"] ∧
     normalizeToStringList (.int 42) = ["42"] ∧
     normalizeToStringList (.bool true) = ["True"]) := by
  refine ⟨?_, ?_, ?_, ?_, ?_⟩
  · intro v hv
    unfold normalizeToStringList
    rw [hv]
    rfl
  · intro s hs
    have ht : truthy (.str s) = true := by
      simp [truthy, hs]
    unfold normalizeToStringList
    rw [ht]
    rfl
  · intro n hn
    have ht : truthy (.int n) = true := by
      simp [truthy, hn]
    unfold normalizeToStringList
    rw [ht]
    rfl
  · intro entries
    rfl
  · refine ⟨rfl, rfl, rfl, rfl, rfl, rfl, rfl, rfl⟩

/-- C8 witness: the structural clauses instantiated on concrete values. -/
theorem normalize_to_string_list_spec_witness :
    normalizeToStringList (.str "xy") = ["xy"] ∧
    normalizeToStringList (.int 7) = ["7"] ∧
    normalizeToStringList .none = [] ∧
    normalizeToStringList (.list [.dict [("k", .str "v")]]) = ["v"] :=
  ⟨normalize_to_string_list_spec.2.1 "xy" (by decide),
   normalize_to_string_list_spec.2.2.1 7 (by decide),
   normalize_to_string_list_spec.1 .none rfl,
   by rw [normalize_to_string_list_spec.2.2.2.1 [("k", .str "v")]]; rfl⟩

/-- Python `dict.setdefault`: insert (at the end) only when the key is
absent. -/
def pySetDefault (d : List (String × PyVal)) (k : String) (v : PyVal) :
    List (String × PyVal) :=
  if (d.lookup k).isSome then d else d ++ [(k, v)]

/-- The key handling at the end of `JobParser._parse_response` once the
response has parsed to structured data: reject non-objects, then
`data.setdefault("title", "Position")` and `data.setdefault("description", "")`
— no key is ever required, no error is raised for absent keys. -/
def jobParserValidate (data : PyVal) : Except String (List (String × PyVal)) :=
  match data with
  | .dict entries =>
    .ok (pySetDefault (pySetDefault entries "title" (.str "Position"))
      "description" (.str ""))
  | _ => .error "Response must be a JSON object"

/-- The structure validation of `Anonymizer._parse_response` once the
response has parsed to structured data: reject non-objects, then check
`"personal_info"` and `"anonymized_cv"` in that order, failing with a
`BadLLMResponseError` that names the first missing key. -/
def anonymizerValidate (data : PyVal) :
    Except String (List (String × PyVal)) :=
  match data with
  | .dict entries =>
    if (entries.lookup "personal_info").isNone then
      .error "Missing \x27personal_info\x27 field"
    else if (entries.lookup "anonymized_cv").isNone then
      .error "Missing \x27anonymized_cv\x27 field"
    else .ok entries
  | _ => .error "Response must be a JSON object"

theorem anonymizerValidate_dict (entries : List (String × PyVal)) :
    anonymizerValidate (.dict entries) =
      (if (entries.lookup "personal_info").isNone then
        .error "Missing \x27personal_info\x27 field"
      else if (entries.lookup "anonymized_cv").isNone then
        .error "Missing \x27anonymized_cv\x27 field"
      else .ok entries) := rfl

/-- C7 counterexample: the cited extraction (`JobParser._parse_response`)
applied to the empty JSON object — which lacks every core key — does not
fail at all: it succeeds, filling in the defaults
`title = "Position"` and `description = ""`. -/
theorem job_parser_accepts_missing_keys :
    jobParserValidate (.dict []) =
      .ok [("title", .str "Position"), ("description", .str "")] := rfl

/-- C7 amended.  The job-parser extraction treats no key as required: for
every parsed object it succeeds (missing `title`/`description` are filled
with defaults).  Required-key enforcement lives in the per-component
validators instead: the anonymizer's parser checks `personal_info` then
`anonymized_cv` in order and fails with a `BadLLMResponseError` naming only
the first missing key (fail-fast, no aggregation of all missing keys). -/
theorem required_key_validation_spec :
    (∀ entries : List (String × PyVal),
      ∃ d, jobParserValidate (.dict entries) = .ok d) ∧
    (∀ entries : List (String × PyVal),
      entries.lookup "personal_info" = none →
      anonymizerValidate (.dict entries) =
        .error "Missing \x27personal_info\x27 field") ∧
    (∀ (entries : List (String × PyVal)) (v : PyVal),
      entries.lookup "personal_info" = some v →
      entries.lookup "anonymized_cv" = none →
      anonymizerValidate (.dict entries) =
        .error "Missing \x27anonymized_cv\x27 field") := by
  refine ⟨fun entries => ⟨_, rfl⟩, ?_, ?_⟩
  · intro entries h
    rw [anonymizerValidate_dict, h]
    rfl
  · intro entries v h1 h2
    rw [anonymizerValidate_dict, h1, h2]
    rfl

/-- C7 witness: the amended statement on concrete objects — the job parser
accepts the object missing both core keys, while the anonymizer names
`personal_info` when both of its required keys are missing (fail-fast) and
`anonymized_cv` when only that one is missing. -/
theorem required_key_validation_spec_witness :
    (∃ d, jobParserValidate (.dict []) = .ok d) ∧
    anonymizerValidate (.dict []) =
      .error "Missing \x27personal_info\x27 field" ∧
    anonymizerValidate (.dict [("personal_info", .none)]) =
      .error "Missing \x27anonymized_cv\x27 field" :=
  ⟨required_key_validation_spec.1 [],
   required_key_validation_spec.2.1 [] rfl,
   required_key_validation_spec.2.2 [("personal_info", .none)] .none rfl rfl⟩

/-! ## Input validation of `CVRewriter.rewrite` (pre-loop stage)

```
if len(anonymized_cv_text.strip()) < 10:
    raise ValueError("Anonymized CV text is empty or too short (min 10 chars)")
...
if not jobs_text or len(jobs_text.strip()) < 10:
    raise ValueError("At least one job description is required")
job_text_parts = jobs_text.split("\\n\\n---\\n\\n")
for jd_text in job_text_parts:
    if jd_text.strip(): jd = await self.job_parser.parse(jd_text); ...
# ... initial similarity, enhancement loop, assembly
```

`rewriteRun` returns the outcome together with the number of LLM generator
calls (one per parsed job part and one per enhancement iteration, counting
the first, successful attempt of each retried call) and of embedding calls
(two per similarity computation: one initial + one per iteration). -/

/-- Python `str.strip()`: drop whitespace from both ends.  (Defined by
structural recursion over the character list so that concrete instances
reduce.) -/
def pyStrip (s : String) : String :=
  String.mk
    (((s.toList.dropWhile Char.isWhitespace).reverse.dropWhile
        Char.isWhitespace).reverse)

/-- The constant `MAX_ITER` from `shared/utils/constants.py`. -/
def MAX_ITER : ℕ := 3

/-- The constant `SIMILARITY_THRESHOLD` from `shared/utils/constants.py`. -/
noncomputable def SIMILARITY_THRESHOLD : ℝ := 0.97

/-- The pipeline `CVRewriter.rewrite` up to the end of the enhancement
stage: input
validation, job-text splitting, then the enhancement loop.  Returns the
result (or the raised `ValueError`) with generator- and embedding-call
counters. -/
noncomputable def rewriteRun (enhance : ℕ → String → ℝ → String)
    (sim : String → ℝ) (maxIter : ℕ) (threshold : ℝ) (cv jobs : String) :
    Except ErrKind (String × ℝ × ℕ) × ℕ × ℕ :=
  if (pyStrip cv).length < 10 then (.error .valueError, 0, 0)
  else if jobs = "" ∨ (pyStrip jobs).length < 10 then (.error .valueError, 0, 0)
  else
    ((.ok (rewriteLoop enhance sim threshold maxIter cv),
      ((jobs.splitOn "\n\n---\n\n").filter (fun p => pyStrip p ≠ "")).length +
        (rewriteLoop enhance sim threshold maxIter cv).2.2,
      2 * (1 + (rewriteLoop enhance sim threshold maxIter cv).2.2)))

/-- C9.  When the trimmed input document is shorter than 10 characters,
`rewrite` raises `ValueError` immediately: no generator call and no
embedding call is made; and `ValueError` is not among the exception classes
the retry wrapper catches, so the failure is never retried. -/
theorem rewrite_short_input_rejected (enhance : ℕ → String → ℝ → String)
    (sim : String → ℝ) (maxIter : ℕ) (threshold : ℝ) (cv jobs : String)
    (h : (pyStrip cv).length < 10) :
    rewriteRun enhance sim maxIter threshold cv jobs =
      (.error .valueError, 0, 0) ∧
    recoverableKind .valueError = false := by
  refine ⟨?_, rfl⟩
  unfold rewriteRun
  rw [if_pos h]

/-- C9 witness: the empty document (trimmed length 0) against a valid jobs
text, with the repository values of `MAX_ITER` and `SIMILARITY_THRESHOLD`. -/
theorem rewrite_short_input_rejected_witness :
    rewriteRun (fun _ d _ => d) (fun _ => (0 : ℝ)) MAX_ITER
        SIMILARITY_THRESHOLD "" "a long enough job description" =
      (.error .valueError, 0, 0) ∧
    recoverableKind .valueError = false :=
  rewrite_short_input_rejected _ _ _ _ _ _ (by decide)

end Win
